import Mathlib

/-!
Verification of `airbyte-integrations/connectors/source-twilio/source_twilio/streams.py`.

The Python code is shallowly embedded: Python dicts become association lists
(`List (String × _)`) whose keys are unique by construction (Python dicts have
unique keys); `dict.get` becomes first-match lookup, `dict.__setitem__` /
`dict.update` become `dinsert` / `dupdate`, which overwrite in place or append
at the end, preserving Python's insertion-order semantics.  Fallible Python
code (`KeyError` on `d[k]`, `pendulum` parse failures) returns `Except`.
The standard-library helpers `urllib.parse.urlparse` / `parse_qsl` are embedded
from their CPython sources (default arguments: `keep_blank_values=False`,
`strict_parsing=False`, separator `&`); percent-decoding (`urllib.parse.unquote`)
is kept abstract as a function parameter `unq` (it is the identity on inputs
without `%` or `+`).  `pendulum.parse(x, strict=False).strftime(template)` is
kept abstract as a parameter `fmt : String → Option String` (`none` models a
parse failure).
-/

/-- A Python string-valued mapping, as an insertion-ordered association list. -/
abbrev SMap := List (String × String)

/-- Request-parameter values: `params["PageSize"] = self.page_size` stores the
integer `100`, while page-token and filter values are strings. -/
inductive PVal where
  | nat (n : Nat) : PVal
  | str (s : String) : PVal
deriving DecidableEq

/-- Python `d.get(k)`: first-match lookup in an association list. -/
def aget {α : Type} : List (String × α) → String → Option α
  | [], _ => none
  | p :: rest, k => if p.1 = k then some p.2 else aget rest k

/-- Python `d[k] = v`: overwrite the (unique) existing entry in place, else
append at the end. -/
def dinsert {α : Type} : List (String × α) → String → α → List (String × α)
  | [], k, v => [(k, v)]
  | p :: rest, k, v => if p.1 = k then (k, v) :: rest else p :: dinsert rest k v

/-- Python `d.update(e)`: insert every pair of `e` in order. -/
def dupdate {α : Type} (m e : List (String × α)) : List (String × α) :=
  e.foldl (fun acc p => dinsert acc p.1 p.2) m

/-- Python `dict(pairs)`: builds a dict from a pair list, later pairs winning. -/
def dictOf {α : Type} (l : List (String × α)) : List (String × α) := dupdate [] l

/-- Splits a character list at every occurrence of `c` (Python
`s.split(c)` for a one-character separator): always returns a non-empty list
of (possibly empty) chunks. -/
def splitOnChar (c : Char) : List Char → List (List Char)
  | [] => [[]]
  | ch :: rest =>
    let r := splitOnChar c rest
    if ch = c then [] :: r
    else
      match r with
      | [] => [[ch]]
      | h :: t => (ch :: h) :: t

/-- `urlparse(url).query` for the inputs the connector sees (no netloc
validation): CPython's `urlsplit` first strips the fragment at the first `#`,
then takes everything after the first `?` of the remainder as the query. -/
def urlQuery (url : String) : String :=
  let pre := (splitOnChar '#' url.toList).headD []
  match splitOnChar '?' pre with
  | [] => ""
  | [_] => ""
  | _ :: rest => String.mk (List.intercalate ['?'] rest)

/-- Python `s.replace('+', ' ')`, applied by `parse_qsl` before unquoting. -/
def plusToSpace (s : List Char) : List Char :=
  s.map fun c => if c = '+' then ' ' else c

/-- One `name=value` chunk of `parse_qsl` (CPython, default arguments): an
empty chunk is skipped, a chunk without `=` is skipped
(`strict_parsing=False`), a chunk with an empty value is skipped
(`keep_blank_values=False`); otherwise `+` becomes a space and `unq`
(percent-decoding) is applied to name and value. -/
def qslPair (unq : String → String) (nv : List Char) : Option (String × String) :=
  if nv.isEmpty then none
  else
    match splitOnChar '=' nv with
    | [] => none
    | [_] => none
    | n :: vparts =>
      let v := List.intercalate ['='] vparts
      if v.isEmpty then none
      else some (unq (String.mk (plusToSpace n)), unq (String.mk (plusToSpace v)))

/-- CPython `urllib.parse.parse_qsl(qs)` with default arguments: split the
query string on `&` and keep the parseable `name=value` chunks. -/
def parseQsl (unq : String → String) (qs : String) : List (String × String) :=
  (splitOnChar '&' qs.toList).filterMap (qslPair unq)

/-- `TwilioStream.next_page_token` (streams.py lines 47–53): read
`next_page_uri` from the response document; if it is absent or falsy (empty)
there is no next page; otherwise parse its query string with `parse_qsl` and
return the resulting dict. -/
def next_page_token (unq : String → String) (doc : SMap) : Option SMap :=
  match aget doc "next_page_uri" with
  | none => none
  | some uri =>
    if uri = "" then none
    else some (dictOf (parseQsl unq (urlQuery uri)))

/-- Modelled from the spec: `airbyte_cdk`'s `HttpStream.request_params` (this
repository's CDK package, not under src/) — per §4.1, `requestParams` injects
only the page-size parameter and the token pairs, with "no stale prior params",
so the inherited default contributes no parameters. -/
def httpStreamRequestParams : List (String × PVal) := []

/-- `TwilioStream.request_params` (streams.py lines 62–72): start from the
inherited params, set `PageSize` to the fixed page size `100`, and if the page
token is truthy (non-empty) merge all its pairs in verbatim. -/
def request_params (tok : SMap) : List (String × PVal) :=
  let params := dinsert httpStreamRequestParams "PageSize" (PVal.nat 100)
  if tok.isEmpty then params
  else dupdate params (tok.map fun p => (p.1, PVal.str p.2))

/-- `TwilioStream.parse_response` (streams.py lines 55–60): look up the
stream's `data_field` in the response document, defaulting to the empty list,
and yield its elements in order. -/
def parse_response {α : Type} (dataField : String) (doc : List (String × List α)) : List α :=
  (aget doc dataField).getD []

/-- Python's `<` on strings (code-point lexicographic comparison), computed
structurally on the character lists. -/
def strLt : List Char → List Char → Bool
  | [], [] => false
  | [], _ :: _ => true
  | _ :: _, [] => false
  | x :: xs, y :: ys => if x < y then true else if y < x then false else strLt xs ys

/-- Python `max(a, b)` on strings: returns `b` exactly when `a < b`
(the first argument wins ties). -/
def pyMax (a b : String) : String :=
  if strLt a.toList b.toList then b else a

/-- `IncrementalTwilioStream.get_updated_state` (streams.py lines 90–98):
`latest_record[cursor_field]` raises `KeyError` when absent; the value is
parsed by `pendulum` and formatted to the stream's time template (`fmt`, which
can fail); if the prior state holds a truthy (non-empty) watermark the result
is `{cursor_field: max(latest, prior)}`, else `{cursor_field: latest}`. -/
def get_updated_state (fmt : String → Option String) (cursorField : String)
    (state : SMap) (record : SMap) : Except String SMap :=
  match aget record cursorField with
  | none => Except.error "KeyError"
  | some raw =>
    match fmt raw with
    | none => Except.error "ParserError"
    | some latest =>
      match aget state cursorField with
      | some prev =>
        if prev = "" then Except.ok [(cursorField, latest)]
        else Except.ok [(cursorField, pyMax latest prev)]
      | none => Except.ok [(cursorField, latest)]

/-- Folding `get_updated_state` over a record sequence, as the sync driver does
after each emitted record. -/
def foldState (fmt : String → Option String) (cursorField : String)
    (state : SMap) : List SMap → Except String SMap
  | [] => Except.ok state
  | q :: rest =>
    match get_updated_state fmt cursorField state q with
    | Except.error e => Except.error e
    | Except.ok state' => foldState fmt cursorField state' rest

/-- The cursor values of a record sequence, parsed and formatted by `fmt`
(`none` when some record lacks the cursor field or fails to parse). -/
def fmtValues (fmt : String → Option String) (cursorField : String) :
    List SMap → Option (List String)
  | [] => some []
  | q :: rest =>
    match aget q cursorField with
    | none => none
    | some raw =>
      match fmt raw with
      | none => none
      | some v => (fmtValues fmt cursorField rest).map (v :: ·)

/-- `IncrementalTwilioStream.request_params` (streams.py lines 100–105): take
the base params, compute `start_date = stream_state.get(cursor_field) or
self._start_date` (Python `or`: a falsy/empty state value falls through to the
configured start date), and if the result is truthy add
`{incremental_filter_field: fmt(start_date)}`. -/
def incremental_request_params (fmt : String → Option String)
    (filterField cursorField : String) (startDate : Option String)
    (state : SMap) (tok : SMap) : Except String (List (String × PVal)) :=
  let params := request_params tok
  let start : Option String :=
    match aget state cursorField with
    | some s => if s = "" then startDate else some s
    | none => startDate
  match start with
  | none => Except.ok params
  | some d =>
    if d = "" then Except.ok params
    else
      match fmt d with
      | none => Except.error "ParserError"
      | some v => Except.ok (dinsert params filterField (PVal.str v))

/-- A parent record seen by a nested stream's `stream_slices`: its scalar
fields and its `subresource_uris` sub-mapping. -/
structure Item where
  fields : SMap
  subresource_uris : SMap
deriving DecidableEq

/-- One `(key, value)` pair of `media_exist_validation`, checked as
`item.get(key) and item.get(key) != value`: truthy (present and non-empty) and
different from the sentinel. -/
def validationOk (item : Item) (kv : String × String) : Bool :=
  match aget item.fields kv.1 with
  | none => false
  | some v => v != "" && v != kv.2

/-- The slices `TwilioNestedStream.stream_slices` (streams.py lines 126–140)
yields for one parent record: skip unless
`item.get("subresource_uris", {}).get(subresource_uri_key)` is truthy, then
skip unless every `media_exist_validation` pair validates, else yield the one
slice `{"subresource_uri": locator}`. -/
def itemSlices (subKey : String) (validation : SMap) (item : Item) : List SMap :=
  match aget item.subresource_uris subKey with
  | none => []
  | some loc =>
    if loc = "" then []
    else if validation.all (validationOk item) then [[("subresource_uri", loc)]]
    else []

/-- `TwilioNestedStream.stream_slices` over the full parent record sequence. -/
def nestedStreamSlices (subKey : String) (validation : SMap)
    (parentRecords : List Item) : List SMap :=
  parentRecords.flatMap (itemSlices subKey validation)

/-- `MessageMedia.data_field` (streams.py line 282). -/
def MessageMedia.data_field : String := "media_list"

/-- `MessageMedia.subresource_uri_key` (streams.py line 283). -/
def MessageMedia.subresource_uri_key : String := "media"

/-- `MessageMedia.media_exist_validation` (streams.py line 284). -/
def MessageMedia.media_exist_validation : SMap := [("num_media", "0")]

/-- How `TwilioNestedStream.stream_slices` (streams.py line 127, likewise
lines 163 and 303) constructs its parent stream:
`self.parent_stream(authenticator=self.authenticator)` passes only the
authenticator, so the parent's `_start_date` is `None` and — the parent being
read with `sync_mode=SyncMode.full_refresh` and no stream state — its state
mapping is empty. -/
structure ParentInit where
  startDate : Option String
  state : SMap

/-- The parent-stream initialisation used by every nested `stream_slices`. -/
def nestedParentInit : ParentInit := { startDate := none, state := [] }

/-- The slice `UsageNestedStream.stream_slices` (streams.py lines 302–309)
yields for one parent record: `{"account_sid": item["sid"]}`, where `item["sid"]`
raises `KeyError` when absent; no locator lookup, no validation. -/
def usageItemSlice (item : Item) : Except String SMap :=
  match aget item.fields "sid" with
  | none => Except.error "KeyError"
  | some sid => Except.ok [("account_sid", sid)]

/-- `UsageNestedStream.stream_slices` over the full parent record sequence. -/
def usageStreamSlices : List Item → Except String (List SMap)
  | [] => Except.ok []
  | i :: rest =>
    match usageItemSlice i with
    | Except.error e => Except.error e
    | Except.ok s =>
      match usageStreamSlices rest with
      | Except.error e => Except.error e
      | Except.ok ss => Except.ok (s :: ss)

/-- The `sid` fields of a parent record sequence (`none` when some record
lacks `sid`). -/
def sidValues : List Item → Option (List String)
  | [] => some []
  | i :: rest =>
    match aget i.fields "sid" with
    | none => none
    | some sid => (sidValues rest).map (sid :: ·)

/-- `UsageNestedStream.path` (streams.py lines 299–300): synthesized from the
fixed suffix `Accounts/{account_sid}/Usage/{path_name}.json`;
`stream_slice["account_sid"]` raises `KeyError` when absent. -/
def usagePath (pathName : String) (slice : SMap) : Except String String :=
  match aget slice "account_sid" with
  | none => Except.error "KeyError"
  | some sid => Except.ok ("Accounts/" ++ sid ++ "/Usage/" ++ pathName ++ ".json")

/-! ### Helper lemmas: the executable string comparison agrees with the order -/

theorem strLt_iff (a b : List Char) : strLt a b = true ↔ List.Lex (· < ·) a b := by
  induction a generalizing b with
  | nil =>
    cases b with
    | nil =>
      constructor
      · intro h
        simp [strLt] at h
      · intro h
        exact absurd h (List.Lex.not_nil_right _ _)
    | cons y ys =>
      constructor
      · intro _
        exact List.Lex.nil
      · intro _
        rfl
  | cons x xs ih =>
    cases b with
    | nil =>
      constructor
      · intro h
        simp [strLt] at h
      · intro h
        exact absurd h (List.Lex.not_nil_right _ _)
    | cons y ys =>
      simp only [strLt]
      by_cases h1 : x < y
      · rw [if_pos h1]
        constructor
        · intro _
          exact List.Lex.rel h1
        · intro _
          rfl
      · by_cases h2 : y < x
        · rw [if_neg h1, if_pos h2]
          constructor
          · intro h
            simp at h
          · intro h
            cases h with
            | cons h' => exact absurd h2 (lt_irrefl x)
            | rel h' => exact absurd h' h1
        · have hxy : x = y := le_antisymm (le_of_not_lt h2) (le_of_not_lt h1)
          subst hxy
          rw [if_neg h1, if_neg h2, ih ys]
          constructor
          · exact List.Lex.cons
          · intro h
            cases h with
            | cons h' => exact h'
            | rel h' => exact absurd h' h1

theorem strLt_iff_lt (a b : String) : strLt a.toList b.toList = true ↔ a < b := by
  rw [strLt_iff, String.lt_iff_toList_lt]
  exact Iff.rfl

theorem pyMax_eq_max (a b : String) : pyMax a b = max a b := by
  unfold pyMax
  rcases lt_trichotomy a b with h | h | h
  · rw [if_pos ((strLt_iff_lt _ _).mpr h), max_eq_right h.le]
  · subst h
    rw [max_self, ite_self]
  · have hf : ¬ strLt a.toList b.toList = true := fun hc =>
      absurd ((strLt_iff_lt _ _).mp hc) (asymm h)
    rw [if_neg hf, max_eq_left h.le]

theorem empty_le_str (s : String) : "" ≤ s := by
  rw [String.le_iff_toList_le, String.toList_empty]
  exact List.nil_le

theorem max_str_empty (s : String) : max s "" = s :=
  max_eq_left (empty_le_str s)

theorem le_foldl_max {α : Type} [LinearOrder α] (w0 : α) (vs : List α) :
    w0 ≤ vs.foldl max w0 := by
  induction vs generalizing w0 with
  | nil => exact le_refl w0
  | cons v vs ih => exact le_trans (le_max_left w0 v) (ih (max w0 v))

/-! ### Helper lemmas: association-list dictionaries -/

theorem aget_dinsert_self {α : Type} (m : List (String × α)) (k : String) (v : α) :
    aget (dinsert m k v) k = some v := by
  induction m with
  | nil =>
    simp [dinsert, aget]
  | cons p rest ih =>
    simp only [dinsert]
    by_cases h : p.1 = k
    · rw [if_pos h]
      simp [aget]
    · rw [if_neg h]
      simp only [aget]
      rw [if_neg h, ih]

theorem aget_dinsert_ne {α : Type} (m : List (String × α)) (k k' : String) (v : α)
    (h : k' ≠ k) : aget (dinsert m k v) k' = aget m k' := by
  induction m with
  | nil =>
    simp only [dinsert, aget]
    rw [if_neg fun hc => h hc.symm]
  | cons p rest ih =>
    simp only [dinsert]
    by_cases hp : p.1 = k
    · rw [if_pos hp]
      simp only [aget]
      rw [if_neg fun hc => h hc.symm, if_neg fun hc : p.1 = k' => h ((hp.symm.trans hc).symm)]
    · rw [if_neg hp]
      simp only [aget]
      by_cases hp' : p.1 = k'
      · rw [if_pos hp', if_pos hp']
      · rw [if_neg hp', if_neg hp', ih]

theorem aget_eq_none {α : Type} (m : List (String × α)) (k : String) :
    aget m k = none ↔ ∀ p ∈ m, p.1 ≠ k := by
  induction m with
  | nil => simp [aget]
  | cons p rest ih =>
    by_cases h : p.1 = k
    · simp [aget, h]
    · simp [aget, h, ih]

theorem aget_dupdate_not_mem {α : Type} (m e : List (String × α)) (k : String)
    (h : ∀ p ∈ e, p.1 ≠ k) : aget (dupdate m e) k = aget m k := by
  induction e generalizing m with
  | nil => rfl
  | cons p rest ih =>
    have step : dupdate m (p :: rest) = dupdate (dinsert m p.1 p.2) rest := rfl
    rw [step, ih (dinsert m p.1 p.2) fun q hq => h q (List.mem_cons_of_mem p hq),
      aget_dinsert_ne _ _ _ _ fun hc => h p (List.mem_cons_self p rest) hc.symm]

theorem aget_dupdate_of_mem {α : Type} (m e : List (String × α)) (k : String) (v : α)
    (hnd : (e.map Prod.fst).Nodup) (h : aget e k = some v) :
    aget (dupdate m e) k = some v := by
  induction e generalizing m with
  | nil => simp [aget] at h
  | cons p rest ih =>
    have step : dupdate m (p :: rest) = dupdate (dinsert m p.1 p.2) rest := rfl
    rw [List.map_cons, List.nodup_cons] at hnd
    simp only [aget] at h
    by_cases hp : p.1 = k
    · rw [if_pos hp] at h
      injection h with hv
      have hmem : ∀ q ∈ rest, q.1 ≠ k := by
        intro q hq hqk
        exact hnd.1 (by rw [hp, ← hqk]; exact List.mem_map_of_mem Prod.fst hq)
      rw [step, aget_dupdate_not_mem _ _ _ hmem, ← hp, aget_dinsert_self, hv]
    · rw [if_neg hp] at h
      rw [step, ih (dinsert m p.1 p.2) hnd.2 h]

theorem aget_map_str (tok : SMap) (k : String) :
    aget (tok.map fun p => (p.1, PVal.str p.2)) k = (aget tok k).map PVal.str := by
  induction tok with
  | nil => rfl
  | cons p rest ih =>
    simp only [List.map_cons, aget]
    by_cases h : p.1 = k
    · simp [h]
    · simp [h, ih]

theorem map_str_keys (tok : SMap) :
    ((tok.map fun p => (p.1, PVal.str p.2)).map Prod.fst) = tok.map Prod.fst := by
  induction tok with
  | nil => rfl
  | cons p rest ih => simp [ih]

/-- Shared step lemma for the incremental state: when the record's cursor
value parses and the prior state holds a watermark (possibly empty), the
result is the singleton state carrying `max latest prior`. -/
theorem get_updated_state_some (fmt : String → Option String) (cf : String)
    (st q : SMap) (raw latest w0 : String)
    (hr : aget q cf = some raw) (hf : fmt raw = some latest)
    (hw : aget st cf = some w0) :
    get_updated_state fmt cf st q = Except.ok [(cf, max latest w0)] := by
  simp only [get_updated_state, hr, hf, hw]
  by_cases h0 : w0 = ""
  · subst h0
    rw [if_pos rfl, max_str_empty]
  · rw [if_neg h0, pyMax_eq_max]

/-- Fold of `get_updated_state` over records whose cursor values all parse:
starting from the watermark `w0`, the final state carries the running maximum
of `w0` and all formatted values. -/
theorem foldState_max (fmt : String → Option String) (cf : String)
    (records : List SMap) (vs : List String) (w0 : String)
    (h : fmtValues fmt cf records = some vs) :
    foldState fmt cf [(cf, w0)] records = Except.ok [(cf, vs.foldl max w0)] := by
  induction records generalizing vs w0 with
  | nil =>
    simp only [fmtValues] at h
    injection h with h
    subst h
    rfl
  | cons q rest ih =>
    cases hr : aget q cf with
    | none => simp [fmtValues, hr] at h
    | some raw =>
      cases hf : fmt raw with
      | none => simp [fmtValues, hr, hf] at h
      | some v =>
        cases hrest : fmtValues fmt cf rest with
        | none => simp [fmtValues, hr, hf, hrest] at h
        | some vs' =>
          simp only [fmtValues, hr, hf, hrest, Option.map_some'] at h
          injection h with h
          subst h
          have hstep := get_updated_state_some fmt cf [(cf, w0)] q raw v w0 hr hf
            (by simp [aget])
          simp only [foldState, hstep]
          rw [ih vs' (max v w0) hrest, List.foldl_cons, max_comm w0 v]

/-- C2: for a prior state with a watermark and a record whose cursor field
parses, `get_updated_state` returns the singleton state carrying
`max latest w0`; when the prior state has no watermark it returns the formatted
record value; the returned value never regresses below `w0`; and folding over
any record sequence whose cursor values all parse yields the maximum of all
formatted values and the initial watermark. -/
theorem C2_watermark_monotonic (fmt : String → Option String) (cf : String)
    (st q : SMap) (raw latest w0 : String) (records : List SMap) (vs : List String)
    (hr : aget q cf = some raw) (hf : fmt raw = some latest)
    (hw : aget st cf = some w0) (hrecs : fmtValues fmt cf records = some vs) :
    get_updated_state fmt cf st q = Except.ok [(cf, max latest w0)]
    ∧ (∀ st0 : SMap, aget st0 cf = none →
        get_updated_state fmt cf st0 q = Except.ok [(cf, latest)])
    ∧ w0 ≤ max latest w0
    ∧ foldState fmt cf [(cf, w0)] records = Except.ok [(cf, vs.foldl max w0)]
    ∧ w0 ≤ vs.foldl max w0 :=
  ⟨get_updated_state_some fmt cf st q raw latest w0 hr hf hw,
   fun st0 h0 => by simp only [get_updated_state, hr, hf, h0],
   le_max_right latest w0,
   foldState_max fmt cf records vs w0 hrecs,
   le_foldl_max w0 vs⟩

/-- Witness for C2 at concrete inputs. -/
theorem C2_witness :
    get_updated_state some "end_time" [("end_time", "2021-01-01T00:00:00Z")]
        [("end_time", "2021-06-01T00:00:00Z")] =
      Except.ok [("end_time", max "2021-06-01T00:00:00Z" "2021-01-01T00:00:00Z")]
    ∧ foldState some "end_time" [("end_time", "2021-01-01T00:00:00Z")]
        [[("end_time", "2021-06-01T00:00:00Z")]] =
      Except.ok [("end_time",
        (["2021-06-01T00:00:00Z"]).foldl max "2021-01-01T00:00:00Z")] := by
  have h := C2_watermark_monotonic some "end_time"
    [("end_time", "2021-01-01T00:00:00Z")] [("end_time", "2021-06-01T00:00:00Z")]
    "2021-06-01T00:00:00Z" "2021-06-01T00:00:00Z" "2021-01-01T00:00:00Z"
    [[("end_time", "2021-06-01T00:00:00Z")]] ["2021-06-01T00:00:00Z"]
    (by decide) (by decide) (by decide) (by decide)
  exact ⟨h.1, h.2.2.2.1⟩

/-- C4: a record that lacks the cursor field makes `get_updated_state` raise
(`KeyError`), for every prior state; it never returns a defaulted state. -/
theorem C4_missing_cursor_errors (fmt : String → Option String) (cf : String)
    (st q : SMap) (h : aget q cf = none) :
    get_updated_state fmt cf st q = Except.error "KeyError" := by
  simp only [get_updated_state, h]

/-- Witness for C4 at a concrete input. -/
theorem C4_witness :
    get_updated_state some "end_time" [("end_time", "2021-01-01T00:00:00Z")]
      [("date_sent", "2021-06-01T00:00:00Z")] = Except.error "KeyError" :=
  C4_missing_cursor_errors some "end_time" _ _ (by decide)

/-- C10: whenever the record's cursor value parses, the state returned by
`get_updated_state` is a singleton mapping keyed by the cursor field alone —
no key of the prior state is carried over. -/
theorem C10_state_single_key (fmt : String → Option String) (cf : String)
    (st q : SMap) (raw latest : String)
    (hr : aget q cf = some raw) (hf : fmt raw = some latest) :
    ∃ w, get_updated_state fmt cf st q = Except.ok [(cf, w)] := by
  simp only [get_updated_state, hr, hf]
  cases hst : aget st cf with
  | none => exact ⟨latest, rfl⟩
  | some w0 =>
    by_cases h0 : w0 = ""
    · exact ⟨latest, by simp [h0]⟩
    · exact ⟨pyMax latest w0, by simp [h0]⟩

/-- Witness for C10: the prior state's extra key `extra` is dropped. -/
theorem C10_witness :
    ∃ w, get_updated_state some "end_time"
      [("end_time", "2021-01-01"), ("extra", "kept-nowhere")]
      [("end_time", "2021-06-01")] = Except.ok [("end_time", w)] :=
  C10_state_single_key some "end_time"
    [("end_time", "2021-01-01"), ("extra", "kept-nowhere")]
    [("end_time", "2021-06-01")] "2021-06-01" "2021-06-01" (by decide) (by decide)

/-- C1: a present, truthy `next_page_uri` yields exactly the mapping parsed
from its query string; `request_params` on a non-empty token with distinct keys
holds exactly the fixed `PageSize = 100` merged with the token's pairs
verbatim and nothing else; and the spec's concrete round-trip example
evaluates accordingly. -/
theorem C1_token_roundtrip (unq : String → String) (doc : SMap) (uri : String)
    (tok : SMap) (h1 : aget doc "next_page_uri" = some uri) (h2 : uri ≠ "")
    (h3 : tok ≠ []) (h4 : (tok.map Prod.fst).Nodup) :
    next_page_token unq doc = some (dictOf (parseQsl unq (urlQuery uri)))
    ∧ (∀ k, aget (request_params tok) k =
        match aget tok k with
        | some v => some (PVal.str v)
        | none => if k = "PageSize" then some (PVal.nat 100) else none)
    ∧ next_page_token (fun s => s)
        [("next_page_uri", "/2010-04-01/Accounts/AC1/Calls.json?PageToken=abc&Page=2")] =
      some [("PageToken", "abc"), ("Page", "2")]
    ∧ request_params [("PageToken", "abc"), ("Page", "2")] =
      [("PageSize", PVal.nat 100), ("PageToken", PVal.str "abc"), ("Page", PVal.str "2")] := by
  refine ⟨?_, ?_, by decide, by decide⟩
  · simp [next_page_token, h1, h2]
  · intro k
    have hne : tok.isEmpty = false := by
      cases tok with
      | nil => exact absurd rfl h3
      | cons a t => rfl
    simp only [request_params, httpStreamRequestParams, hne, Bool.false_eq_true,
      if_false]
    cases hk : aget tok k with
    | some v =>
      have hnd : ((tok.map fun p => (p.1, PVal.str p.2)).map Prod.fst).Nodup := by
        rw [map_str_keys]
        exact h4
      have hsome : aget (tok.map fun p => (p.1, PVal.str p.2)) k = some (PVal.str v) := by
        rw [aget_map_str, hk]
        rfl
      rw [aget_dupdate_of_mem _ _ _ _ hnd hsome]
    | none =>
      have hnone : aget (tok.map fun p => (p.1, PVal.str p.2)) k = none := by
        rw [aget_map_str, hk]
        rfl
      rw [aget_dupdate_not_mem _ _ _ ((aget_eq_none _ _).mp hnone)]
      by_cases hps : k = "PageSize"
      · subst hps
        simp [dinsert, aget]
      · simp [dinsert, aget, hps, Ne.symm hps]

/-- Witness for C1 at concrete inputs. -/
theorem C1_witness :
    next_page_token (fun s => s) [("next_page_uri", "/x.json?a=1")] =
      some (dictOf (parseQsl (fun s => s) (urlQuery "/x.json?a=1")))
    ∧ aget (request_params [("a", "1")]) "a" =
      (match aget [("a", "1")] "a" with
       | some v => some (PVal.str v)
       | none => if "a" = "PageSize" then some (PVal.nat 100) else none) := by
  have h := C1_token_roundtrip (fun s => s) [("next_page_uri", "/x.json?a=1")]
    "/x.json?a=1" [("a", "1")] (by decide) (by decide) (by decide) (by decide)
  exact ⟨h.1, h.2.1 "a"⟩

/-- C3 (counterexample to the claim as stated): a response whose
`next_page_uri` query string is wholly unparseable garbage makes
`next_page_token` return normally with the empty token mapping — no hard error
is raised (and the token is not `none` either). -/
theorem C3_counterexample :
    next_page_token (fun s => s)
      [("next_page_uri", "/2010-04-01/Accounts/AC1/Calls.json?%%%&garbage")] = some []
    ∧ next_page_token (fun s => s)
        [("next_page_uri", "/2010-04-01/Accounts/AC1/Calls.json?%%%&garbage")] ≠ none := by
  exact ⟨by decide, by decide⟩

/-- C3 (amended): for every present, truthy `next_page_uri` — however
malformed its query string — `next_page_token` returns `some` mapping (the
pairs `parse_qsl` could extract, possibly empty): it never raises. -/
theorem C3_lenient_parsing (unq : String → String) (doc : SMap) (uri : String)
    (h1 : aget doc "next_page_uri" = some uri) (h2 : uri ≠ "") :
    (∃ t, next_page_token unq doc = some t) ∧ next_page_token unq doc ≠ none := by
  refine ⟨⟨dictOf (parseQsl unq (urlQuery uri)), ?_⟩, ?_⟩
  · simp [next_page_token, h1, h2]
  · simp [next_page_token, h1, h2]

/-- Witness for the amended C3 at a concrete malformed input. -/
theorem C3_witness :
    (∃ t, next_page_token (fun s => s) [("next_page_uri", "/a.json?%%%")] = some t)
    ∧ next_page_token (fun s => s) [("next_page_uri", "/a.json?%%%")] ≠ none :=
  C3_lenient_parsing (fun s => s) [("next_page_uri", "/a.json?%%%")] "/a.json?%%%"
    (by decide) (by decide)

/-- C5: a response document without the stream's `data_field` parses to zero
records (no error); with the field present, `parse_response` yields exactly its
elements in order. -/
theorem C5_parse_extracts (α : Type) (df : String) (doc : List (String × List α))
    (xs : List α) :
    (aget doc df = none → parse_response df doc = [])
    ∧ (aget doc df = some xs → parse_response df doc = xs) := by
  constructor
  · intro h
    simp [parse_response, h]
  · intro h
    simp [parse_response, h]

/-- Witness for C5 at concrete inputs. -/
theorem C5_witness :
    parse_response "calls" ([("other", [1, 2])] : List (String × List Nat)) = []
    ∧ parse_response "calls" ([("calls", [3, 4])] : List (String × List Nat)) = [3, 4] :=
  ⟨(C5_parse_extracts Nat "calls" [("other", [1, 2])] []).1 (by decide),
   (C5_parse_extracts Nat "calls" [("calls", [3, 4])] [3, 4]).2 (by decide)⟩

/-- C6 (counterexample to the claim as stated): a parent record whose `media`
locator is present and whose validation field `num_media` is present and not
equal to the sentinel `"0"` — but empty, hence falsy — yields zero slices,
where the claim demands exactly one. -/
theorem C6_counterexample :
    itemSlices "media" [("num_media", "0")]
      ⟨[("num_media", "")], [("media", "/m.json")]⟩ = []
    ∧ itemSlices "media" [("num_media", "0")]
        ⟨[("num_media", "")], [("media", "/m.json")]⟩ ≠
      [[("subresource_uri", "/m.json")]] :=
  ⟨by decide, by decide⟩

/-- C6 (amended): a parent record yields zero slices when the locator key is
absent or its value is falsy (empty), and zero slices when any validation pair
fails (its field absent, falsy, or equal to the sentinel); when the locator is
present and truthy and every validation pair holds (field present, non-empty
and different from the sentinel) it yields exactly one slice carrying the
locator — e.g. MessageMedia's rule with `num_media = "5"`. -/
theorem C6_nested_slice_rule (subKey : String) (validation : SMap) (item : Item)
    (loc : String) :
    (aget item.subresource_uris subKey = none → itemSlices subKey validation item = [])
    ∧ (aget item.subresource_uris subKey = some "" → itemSlices subKey validation item = [])
    ∧ (validation.all (validationOk item) = false → itemSlices subKey validation item = [])
    ∧ (aget item.subresource_uris subKey = some loc → loc ≠ "" →
        validation.all (validationOk item) = true →
        itemSlices subKey validation item = [[("subresource_uri", loc)]])
    ∧ itemSlices MessageMedia.subresource_uri_key MessageMedia.media_exist_validation
        ⟨[("num_media", "5")], [("media", "/m5.json")]⟩ =
      [[("subresource_uri", "/m5.json")]] := by
  refine ⟨?_, ?_, ?_, ?_, by decide⟩
  · intro h
    simp [itemSlices, h]
  · intro h
    simp [itemSlices, h]
  · intro h
    unfold itemSlices
    cases hs : aget item.subresource_uris subKey with
    | none => rfl
    | some loc' =>
      by_cases hl : loc' = ""
      · simp [hl]
      · simp [hl, h]
  · intro h hl hv
    simp [itemSlices, h, hl, hv]

/-- Witness for the amended C6 at a concrete input. -/
theorem C6_witness :
    itemSlices "media" [("num_media", "0")]
      ⟨[("num_media", "5")], [("media", "/m.json")]⟩ =
      [[("subresource_uri", "/m.json")]] :=
  (C6_nested_slice_rule "media" [("num_media", "0")]
    ⟨[("num_media", "5")], [("media", "/m.json")]⟩ "/m.json").2.2.2.1
    (by decide) (by decide) (by decide)

/-- C7: the incremental `request_params` uses the state's watermark when it is
present and truthy — taking precedence over the configured start date —
otherwise the start date; when the effective start exists the result is the
base params plus `filterField ↦ fmt(start)` (and that key is present in the
result); when neither exists, no filter parameter is added. -/
theorem C7_incremental_filter (fmt : String → Option String) (ff cf : String)
    (sd : Option String) (st tok : SMap) (s d v : String) :
    (aget st cf = some s → s ≠ "" → fmt s = some v →
      incremental_request_params fmt ff cf sd st tok =
        Except.ok (dinsert (request_params tok) ff (PVal.str v))
      ∧ aget (dinsert (request_params tok) ff (PVal.str v)) ff = some (PVal.str v))
    ∧ ((aget st cf = none ∨ aget st cf = some "") → sd = some d → d ≠ "" →
        fmt d = some v →
      incremental_request_params fmt ff cf sd st tok =
        Except.ok (dinsert (request_params tok) ff (PVal.str v)))
    ∧ ((aget st cf = none ∨ aget st cf = some "") → (sd = none ∨ sd = some "") →
      incremental_request_params fmt ff cf sd st tok = Except.ok (request_params tok)) := by
  refine ⟨?_, ?_, ?_⟩
  · intro h1 h2 h3
    constructor
    · simp [incremental_request_params, h1, h2, h3]
    · exact aget_dinsert_self _ _ _
  · intro h1 h2 h3 h4
    subst h2
    rcases h1 with h1 | h1 <;> simp [incremental_request_params, h1, h3, h4]
  · intro h1 h2
    rcases h1 with h1 | h1 <;> rcases h2 with h2 | h2 <;>
      subst h2 <;> simp [incremental_request_params, h1]

/-- Witness for C7 at concrete inputs: state precedence, start-date fallback,
and the no-filter case. -/
theorem C7_witness :
    (incremental_request_params some "EndTime>" "end_time"
        (some "2021-01-01T00:00:00Z") [("end_time", "2021-06-01T00:00:00Z")] [] =
      Except.ok (dinsert (request_params []) "EndTime>"
        (PVal.str "2021-06-01T00:00:00Z")))
    ∧ (incremental_request_params some "EndTime>" "end_time"
        (some "2021-01-01T00:00:00Z") [] [] =
      Except.ok (dinsert (request_params []) "EndTime>"
        (PVal.str "2021-01-01T00:00:00Z")))
    ∧ incremental_request_params some "EndTime>" "end_time" none [] [] =
      Except.ok (request_params []) := by
  refine ⟨?_, ?_, ?_⟩
  · exact ((C7_incremental_filter some "EndTime>" "end_time"
      (some "2021-01-01T00:00:00Z") [("end_time", "2021-06-01T00:00:00Z")] []
      "2021-06-01T00:00:00Z" "" "2021-06-01T00:00:00Z").1
      (by decide) (by decide) (by decide)).1
  · exact (C7_incremental_filter some "EndTime>" "end_time"
      (some "2021-01-01T00:00:00Z") [] [] "" "2021-01-01T00:00:00Z"
      "2021-01-01T00:00:00Z").2.1 (Or.inl rfl) rfl (by decide) (by decide)
  · exact (C7_incremental_filter some "EndTime>" "end_time" none [] []
      "" "" "").2.2 (Or.inl rfl) (Or.inl rfl)

/-- C8: a nested stream's parent is constructed from only the authenticator
(`nestedParentInit`: no start date, empty state), so the parent's request
params — for any page token, formatting function, filter field and cursor
field, and in particular for incremental parent classes — equal the plain
full-refresh params: no incremental filter is ever applied and no prior state
is reused. -/
theorem C8_parent_full_refresh (fmt : String → Option String) (ff cf : String)
    (tok : SMap) :
    incremental_request_params fmt ff cf nestedParentInit.startDate
      nestedParentInit.state tok = Except.ok (request_params tok) := rfl

/-- C9: for every parent record with a `sid`, the usage-style slice is exactly
`{account_sid: sid}` — computed from the scalar fields alone (any
`subresource_uris` content is ignored, no validation applied) — the stream
yields exactly one such slice per parent record, and the path is synthesized
as `Accounts/{account_sid}/Usage/{path_name}.json`. -/
theorem C9_usage_slices (item : Item) (su : SMap) (sid pathName : String)
    (items : List Item) (sids : List String)
    (h : aget item.fields "sid" = some sid)
    (hall : sidValues items = some sids) :
    usageItemSlice item = Except.ok [("account_sid", sid)]
    ∧ usageItemSlice ⟨item.fields, su⟩ = usageItemSlice item
    ∧ usagePath pathName [("account_sid", sid)] =
      Except.ok ("Accounts/" ++ sid ++ "/Usage/" ++ pathName ++ ".json")
    ∧ usageStreamSlices items = Except.ok (sids.map fun x => [("account_sid", x)]) := by
  refine ⟨by simp [usageItemSlice, h], rfl, by simp [usagePath, aget], ?_⟩
  induction items generalizing sids with
  | nil =>
    simp only [sidValues] at hall
    injection hall with hall
    subst hall
    rfl
  | cons i rest ih =>
    cases hs : aget i.fields "sid" with
    | none => simp [sidValues, hs] at hall
    | some sid' =>
      cases hrest : sidValues rest with
      | none => simp [sidValues, hs, hrest] at hall
      | some sids' =>
        simp only [sidValues, hs, hrest, Option.map_some'] at hall
        injection hall with hall
        subst hall
        simp only [usageStreamSlices, usageItemSlice, hs, ih sids' hrest, List.map_cons]

/-- Witness for C9 at concrete inputs. -/
theorem C9_witness :
    usageItemSlice ⟨[("sid", "AC1")], [("media", "/m.json")]⟩ =
      Except.ok [("account_sid", "AC1")]
    ∧ usagePath "Records" [("account_sid", "AC1")] =
      Except.ok ("Accounts/" ++ "AC1" ++ "/Usage/" ++ "Records" ++ ".json")
    ∧ usageStreamSlices [⟨[("sid", "AC1")], [("media", "/m.json")]⟩, ⟨[("sid", "AC2")], []⟩] =
      Except.ok (["AC1", "AC2"].map fun x => [("account_sid", x)]) := by
  have h := C9_usage_slices ⟨[("sid", "AC1")], [("media", "/m.json")]⟩ [] "AC1" "Records"
    [⟨[("sid", "AC1")], [("media", "/m.json")]⟩, ⟨[("sid", "AC2")], []⟩] ["AC1", "AC2"]
    (by decide) (by decide)
  exact ⟨h.1, h.2.2.1, h.2.2.2⟩
